import Mathlib

set_option maxHeartbeats 1000000

/-!
A verification development for the `rosa` managed-service commands
(`cmd/create/service/cmd.go` and the `list services` command).  The Go code
is shallowly embedded: Go strings are modelled as lists of characters (the
byte-level operations in the source coincide with character-level operations
on the ASCII data these commands handle), the sequential command handler is
modelled phase by phase as pure functions over its external inputs (the AWS
and OCM calls become function-valued parameters), and `os.Exit(1)` becomes an
`exited` flag / `none` result.
-/

/-- Go strings, modelled as lists of characters. -/
abbrev GoStr := List Char

/-- Convert a Lean string literal to the Go-string model. -/
def gs (s : String) : GoStr := s.data

/-- Split at the first occurrence of a separator character; `none` when the
separator does not occur.  This is the first cut made by Go `strings.SplitN`. -/
def splitOnce (sep : Char) : GoStr → Option (GoStr × GoStr)
  | [] => none
  | c :: cs =>
    if c = sep then some ([], cs)
    else
      match splitOnce sep cs with
      | none => none
      | some (a, b) => some (c :: a, b)

/-- Go `strings.SplitN` with a single-character separator and bound `n > 0`:
at most `n` pieces, the last piece keeping any remaining separators. -/
def splitN (sep : Char) : Nat → GoStr → List GoStr
  | 0, _ => []
  | 1, s => [s]
  | n + 2, s =>
    match splitOnce sep s with
    | none => [s]
    | some (a, b) => a :: splitN sep (n + 1) b

/-- Go `strings.Contains s sub`: `sub` occurs inside `s`. -/
def goContains (s sub : GoStr) : Bool := decide (sub <:+: s)

/-- Go `strings.HasPrefix`. -/
def goHasPre (s p : GoStr) : Bool := decide (p <+: s)

/-- Go `strings.TrimSuffix`. -/
def goTrimSuffix (s suf : GoStr) : GoStr :=
  if suf <:+ s then s.take (s.length - suf.length) else s

/-- An AWS ARN as parsed by `aws-sdk-go`'s `arn.Parse` (an external
collaborator of the command): six colon-separated sections. -/
structure ARN where
  partition : GoStr
  service : GoStr
  region : GoStr
  accountID : GoStr
  resource : GoStr
deriving DecidableEq

/-- Model of `arn.Parse` from `aws-sdk-go`: the string must carry the `arn:` marker and
split into exactly six colon-separated sections; error paths are `none`. -/
def arnParse (s : GoStr) : Option ARN :=
  if goHasPre s (gs "arn:") then
    match splitN ':' 6 s with
    | [_, p, sv, rg, ac, res] => some ⟨p, sv, rg, ac, res⟩
    | _ => none
  else none

/-- An account-role category record (`aws.AccountRole`): its canonical name. -/
structure AccountRole where
  Name : GoStr
deriving DecidableEq

/-- The four account-role categories used by the command. -/
inductive AccountRoleType
  | installer
  | support
  | controlPlane
  | worker
deriving DecidableEq

/-- Modelled from the spec: the `aws.AccountRoles` table of `pkg/aws` (not
under `src/`) mapping the four account-role categories (installer, support,
control-plane, worker) to their canonical role names. -/
def AccountRoles : AccountRoleType → AccountRole
  | .installer => ⟨gs "Installer"⟩
  | .support => ⟨gs "Support"⟩
  | .controlPlane => ⟨gs "ControlPlane"⟩
  | .worker => ⟨gs "Worker"⟩

/-- Modelled from the spec: `aws.DefaultPrefix` of `pkg/aws` (not under
`src/`), the default naming prefix for account roles. -/
def DefaultPrefix : GoStr := gs "ManagedOpenShift"

/-- Function `getAccountRolePrefix` from `cmd/create/service/cmd.go`: parse the ARN,
take the part of the resource after the first slash, and strip the
`-<RoleName>-Role` suffix.  The out-of-range index Go would panic on when the
resource holds no slash is modelled as `none`. -/
def getAccountRolePrefix (roleARN : GoStr) (role : AccountRole) : Option GoStr :=
  match arnParse roleARN with
  | none => none
  | some parsed =>
    match splitN '/' 2 parsed.resource with
    | [_, roleName] => some (goTrimSuffix roleName (gs "-" ++ role.Name ++ gs "-Role"))
    | _ => none

/-- A required operator credential (`aws.Operator`). -/
structure Operator where
  Name : GoStr
  Namespace : GoStr
  MinVersion : GoStr
deriving DecidableEq

/-- The caller's AWS identity (`aws.Creator`). -/
structure Creator where
  AccountID : GoStr
deriving DecidableEq

/-- A resolved operator IAM role entry (`ocm.OperatorIAMRole`). -/
structure OperatorIAMRole where
  Name : GoStr
  Namespace : GoStr
  RoleARN : GoStr
deriving DecidableEq

/-- The role name built by `getOperatorRoleArn` before the ARN is assembled:
`<pfx>-<namespace>-<name>`, cut to its first 64 characters when longer. -/
def operatorRoleName (pfx : GoStr) (op : Operator) : GoStr :=
  let role := pfx ++ gs "-" ++ op.Namespace ++ gs "-" ++ op.Name
  if 64 < role.length then role.take 64 else role

/-- Function `getOperatorRoleArn` from `cmd/create/service/cmd.go`. -/
def getOperatorRoleArn (pfx : GoStr) (op : Operator) (creator : Creator) : GoStr :=
  gs "arn:aws:iam::" ++ creator.AccountID ++ gs ":role/" ++ operatorRoleName pfx op

/-- The selection loop shared by the role-resolution code: start from a
default and replace it by every ARN containing the pattern, so the last match
wins, exactly as the Go `for` loop does. -/
def selectARN (pat : GoStr) (dflt : GoStr) (arns : List GoStr) : GoStr :=
  arns.foldl (fun acc r => if goContains r pat then r else acc) dflt

/-- The errors the role-resolution phase can report. -/
inductive RoleErr
  | findInstallerErr
  | noInstallerRoles
  | pfxErr
  | findDepErr (t : AccountRoleType)
  | noDepRoles (t : AccountRoleType)
  | pleaseCreate
deriving DecidableEq

/-- The state threaded through the account-role resolution phase of `run`
(lines 96-184 of `cmd/create/service/cmd.go`): the four ARN variables, the
`hasRoles` flag, the errors and warnings reported so far, the AWS
`FindRoleARNs` calls made for the dependent categories, and whether
`os.Exit(1)` was reached. -/
structure RolePhase where
  roleARN : GoStr
  supportRoleARN : GoStr
  controlPlaneRoleARN : GoStr
  workerRoleARN : GoStr
  hasRoles : Bool
  errors : List RoleErr
  warned : Bool
  depCalls : List AccountRoleType
  exited : Bool
deriving DecidableEq

/-- The variable a category's selected ARN is assigned to by the `switch`. -/
def RolePhase.depField : RolePhase → AccountRoleType → GoStr
  | st, .installer => st.roleARN
  | st, .support => st.supportRoleARN
  | st, .controlPlane => st.controlPlaneRoleARN
  | st, .worker => st.workerRoleARN

/-- Assignment through the `switch` on the role type. -/
def RolePhase.setDep : RolePhase → AccountRoleType → GoStr → RolePhase
  | st, .installer, v => { st with roleARN := v }
  | st, .support, v => { st with supportRoleARN := v }
  | st, .controlPlane, v => { st with controlPlaneRoleARN := v }
  | st, .worker, v => { st with workerRoleARN := v }

/-- The zero-initialised state at the top of `run`. -/
def initialPhase : RolePhase := ⟨[], [], [], [], false, [], false, [], false⟩

/-- The `<prefix>-<RoleName>-Role` pattern required to appear in a category's
ARN. -/
def depPattern (pfx : GoStr) (t : AccountRoleType) : GoStr :=
  pfx ++ gs "-" ++ (AccountRoles t).Name ++ gs "-Role"

/-- Installer-role selection (lines 108-126): with more than one candidate,
warn and prefer (the last) ARN embedding the default-prefixed name; with one,
use it; with none, report the actionable error but do not exit here. -/
def installerSelect (roleARNs : List GoStr) : RolePhase :=
  if 1 < roleARNs.length then
    { initialPhase with
        roleARN := selectARN (depPattern DefaultPrefix .installer) (roleARNs.headD []) roleARNs,
        warned := true }
  else if roleARNs.length = 1 then
    { initialPhase with roleARN := roleARNs.headD [] }
  else
    { initialPhase with errors := [RoleErr.noInstallerRoles] }

/-- The loop over the dependent role categories (lines 138-174): each
iteration calls `FindRoleARNs` (a find error exits at once), selects the last
ARN containing `<prefix>-<RoleName>-Role`, reports a missing category and
clears `hasRoles`, and assigns the selected ARN through the `switch`. -/
def depLoop (findDep : AccountRoleType → Option (List GoStr)) (pfx : GoStr) :
    List AccountRoleType → RolePhase → RolePhase
  | [], st => st
  | t :: ts, st =>
    match findDep t with
    | none =>
      { st with errors := st.errors ++ [RoleErr.findDepErr t],
                depCalls := st.depCalls ++ [t], exited := true }
    | some arns =>
      let sel := selectARN (depPattern pfx t) [] arns
      let st1 := { st with depCalls := st.depCalls ++ [t] }
      let st2 :=
        if sel = [] then
          { st1 with errors := st1.errors ++ [RoleErr.noDepRoles t], hasRoles := false }
        else st1
      depLoop findDep pfx ts (st2.setDep t sel)

/-- The dependent categories in iteration order.  Go iterates the
`aws.AccountRoles` map in unspecified order and skips the installer; the
order is fixed here, and none of the verified properties depend on it. -/
def depRoleOrder : List AccountRoleType := [.support, .controlPlane, .worker]

/-- The account-role resolution phase of `run` (lines 96-184): find the
installer roles (a find error exits), select one, derive the role prefix from
it (a parse error exits), resolve the three dependent categories, and exit
when any of the four is unresolved (`hasRoles == false`). -/
def rolePhase (installerFind : Option (List GoStr))
    (findDep : AccountRoleType → Option (List GoStr)) : RolePhase :=
  match installerFind with
  | none => { initialPhase with errors := [RoleErr.findInstallerErr], exited := true }
  | some roleARNs =>
    let st := installerSelect roleARNs
    if st.roleARN = [] then
      { st with errors := st.errors ++ [RoleErr.pleaseCreate], exited := true }
    else
      match getAccountRolePrefix st.roleARN (AccountRoles .installer) with
      | none => { st with errors := st.errors ++ [RoleErr.pfxErr], exited := true }
      | some rolePfx =>
        let r := depLoop findDep rolePfx depRoleOrder { st with hasRoles := true }
        if r.exited then r
        else if r.hasRoles then r
        else { r with errors := r.errors ++ [RoleErr.pleaseCreate], exited := true }

/-- The operator-role loop of `run` (lines 196-213): skip an operator whose
non-empty minimum version is not met (a failing version check exits, modelled
as `none`), otherwise append one entry carrying the operator's name,
namespace and computed role ARN. -/
def buildOperatorRoles (check : GoStr → GoStr → Option Bool) (minor : GoStr)
    (pfx : GoStr) (creator : Creator) : List Operator → Option (List OperatorIAMRole)
  | [] => some []
  | op :: ops =>
    if op.MinVersion = [] then
      (buildOperatorRoles check minor pfx creator ops).map
        (fun l => OperatorIAMRole.mk op.Name op.Namespace (getOperatorRoleArn pfx op creator) :: l)
    else
      match check minor op.MinVersion with
      | none => none
      | some false => buildOperatorRoles check minor pfx creator ops
      | some true =>
        (buildOperatorRoles check minor pfx creator ops).map
          (fun l => OperatorIAMRole.mk op.Name op.Namespace (getOperatorRoleArn pfx op creator) :: l)

/-- Read a non-empty all-digit string as a number. -/
def digitsToNat (s : GoStr) : Option Nat :=
  if s ≠ [] ∧ s.all Char.isDigit then
    some (s.foldl (fun n c => 10 * n + (c.toNat - 48)) 0)
  else none

/-- Read a `major.minor` version string. -/
def parseMajorMinor (v : GoStr) : Option (Nat × Nat) :=
  match splitOnce '.' v with
  | none => none
  | some (a, b) =>
    match digitsToNat a, digitsToNat b with
    | some x, some y => some (x, y)
    | _, _ => none

/-- Modelled from the spec: `ocm.CheckSupportedVersion` of `pkg/ocm` (not
under `src/`) — whether the cluster's `major.minor` version meets the
operator's minimum, per the spec's gating example (`4.9` fails a `4.10`
minimum, `4.10` and higher meet it); unparsable versions are the error
path, modelled as `none`. -/
def CheckSupportedVersion (clusterMinor opMin : GoStr) : Option Bool :=
  match parseMajorMinor clusterMinor, parseMajorMinor opMin with
  | some a, some b => some (decide (b.1 < a.1 ∨ (b.1 = a.1 ∧ b.2 ≤ a.2)))
  | _, _ => none

/-- The parameter loop of `run` (lines 261-269): for each add-on parameter
ID, look the ID up among the command's flags and, when a flag exists, store
its string value in the parameter map under that ID. -/
def applyAddOnParameters (flagLookup : GoStr → Option GoStr)
    (paramIDs : List GoStr) (m0 : GoStr → Option GoStr) : GoStr → Option GoStr :=
  paramIDs.foldl
    (fun m pid =>
      match flagLookup pid with
      | some v => fun k => if k = pid then some v else m k
      | none => m) m0

/-- The observable events of the tail of `run` (lines 255-287). -/
inductive RunEvent
  | reportAddOnErr
  | callCreate
  | reportCreateErr
  | exit1
  | printService
deriving DecidableEq

/-- The add-on-parameter and creation tail of `run` (lines 255-287) as an
event trace: a failed `GetAddOn` (modelled by `addOnRes = none`) is reported
but execution continues; `CreateManagedService` is then called, and its
failure is reported and exits. -/
def paramAndCreatePhase (addOnRes : Option (List GoStr)) (createOk : Bool) : List RunEvent :=
  (match addOnRes with
   | none => [RunEvent.reportAddOnErr]
   | some _ => []) ++
  [RunEvent.callCreate] ++
  (if createOk then [RunEvent.printService]
   else [RunEvent.reportCreateErr, RunEvent.exit1])

/-- A managed-service record as listed (`ManagedService`: ID, service name,
state). -/
structure ManagedService where
  id : GoStr
  service : GoStr
  serviceState : GoStr
deriving DecidableEq

/-- The page size passed to `ListManagedServices`. -/
def listRequestSize : Nat := 1000

/-- The lines written to the table writer by the list command: the header
row, then one tab-separated row per record in order. -/
def listServicesLines (records : List ManagedService) : List GoStr :=
  gs "ID\tSERVICE\tSTATE\n" ::
    records.map (fun s => s.id ++ gs "\t" ++ s.service ++ gs "\t" ++ s.serviceState ++ gs "\n")

/-- The `list services` handler (the second command file): one
`ListManagedServices` call at the fixed page size (a failed call is reported
and exits, modelled as `none`), then the table lines. -/
def listServicesRun (fetch : Nat → Option (List ManagedService)) : Option (List GoStr) :=
  match fetch listRequestSize with
  | none => none
  | some records => some (listServicesLines records)

/-- The role-name extraction performed by the name-availability validation
loop (line 217): `strings.SplitN(role.RoleARN, "/", 2)[1]`. -/
def extractedRoleName (r : OperatorIAMRole) : GoStr :=
  (splitN '/' 2 r.RoleARN).getD 1 []

/-! ### Helper lemmas about the string model -/

theorem splitOnce_append (sep : Char) :
    ∀ (a b : GoStr), sep ∉ a → splitOnce sep (a ++ sep :: b) = some (a, b)
  | [], b, _ => by simp [splitOnce]
  | c :: cs, b, h => by
    have hc : ¬ c = sep := fun hcs => h (hcs ▸ List.mem_cons_self c cs)
    have ih := splitOnce_append sep cs b (fun hm => h (List.mem_cons_of_mem c hm))
    simp [splitOnce, hc, ih]

theorem selectARN_cons (pat dflt a : GoStr) (l : List GoStr) :
    selectARN pat dflt (a :: l) = selectARN pat (if goContains a pat then a else dflt) l := rfl

theorem selectARN_eq (pat : GoStr) (arns : List GoStr) (dflt : GoStr) :
    selectARN pat dflt arns = (arns.filter (fun r => goContains r pat)).getLastD dflt := by
  induction arns generalizing dflt with
  | nil => rfl
  | cons a l ih =>
    rw [selectARN_cons, List.filter_cons]
    by_cases h : goContains a pat = true
    · rw [if_pos h, if_pos h, ih, List.getLastD_cons]
    · rw [if_neg h, if_neg h, ih]

theorem selectARN_default_or (pat : GoStr) (arns : List GoStr) (dflt : GoStr) :
    selectARN pat dflt arns = dflt ∨
      (goContains (selectARN pat dflt arns) pat = true ∧ selectARN pat dflt arns ∈ arns) := by
  induction arns generalizing dflt with
  | nil => exact Or.inl rfl
  | cons a l ih =>
    rw [selectARN_cons]
    by_cases h : goContains a pat = true
    · rw [if_pos h]
      rcases ih a with h1 | h2
      · rw [h1]
        exact Or.inr ⟨h, List.mem_cons_self a l⟩
      · exact Or.inr ⟨h2.1, List.mem_cons_of_mem a h2.2⟩
    · rw [if_neg h]
      rcases ih dflt with h1 | h2
      · exact Or.inl h1
      · exact Or.inr ⟨h2.1, List.mem_cons_of_mem a h2.2⟩

/-! ### Helper lemmas about the role-resolution state -/

theorem setDep_depField (st : RolePhase) (t u : AccountRoleType) (v : GoStr) :
    (st.setDep t v).depField u = if u = t then v else st.depField u := by
  cases t <;> cases u <;> simp [RolePhase.setDep, RolePhase.depField]

theorem setDep_hasRoles (st : RolePhase) (t : AccountRoleType) (v : GoStr) :
    (st.setDep t v).hasRoles = st.hasRoles := by cases t <;> rfl

theorem setDep_errors (st : RolePhase) (t : AccountRoleType) (v : GoStr) :
    (st.setDep t v).errors = st.errors := by cases t <;> rfl

theorem setDep_exited (st : RolePhase) (t : AccountRoleType) (v : GoStr) :
    (st.setDep t v).exited = st.exited := by cases t <;> rfl

theorem setDep_depCalls (st : RolePhase) (t : AccountRoleType) (v : GoStr) :
    (st.setDep t v).depCalls = st.depCalls := by cases t <;> rfl

theorem depLoop_hasRoles_false (f : AccountRoleType → Option (List GoStr)) (p : GoStr) :
    ∀ (ts : List AccountRoleType) (st : RolePhase), st.hasRoles = false →
      (depLoop f p ts st).hasRoles = false := by
  intro ts
  induction ts with
  | nil => intro st h; exact h
  | cons t ts ih =>
    intro st h
    simp only [depLoop]
    cases hf : f t with
    | none => exact h
    | some arns =>
      apply ih
      rw [setDep_hasRoles]
      by_cases hsel : selectARN (depPattern p t) [] arns = [] <;> simp [hsel, h]

theorem depLoop_hasRoles_mono (f : AccountRoleType → Option (List GoStr)) (p : GoStr)
    (ts : List AccountRoleType) (st : RolePhase)
    (h : (depLoop f p ts st).hasRoles = true) : st.hasRoles = true := by
  by_contra hc
  have := depLoop_hasRoles_false f p ts st (Bool.eq_false_iff.mpr hc)
  rw [h] at this
  exact Bool.true_eq_false.mp this

theorem depLoop_errors_pre (f : AccountRoleType → Option (List GoStr)) (p : GoStr) :
    ∀ (ts : List AccountRoleType) (st : RolePhase),
      st.errors <+: (depLoop f p ts st).errors := by
  intro ts
  induction ts with
  | nil => intro st; exact List.prefix_rfl
  | cons t ts ih =>
    intro st
    simp only [depLoop]
    cases hf : f t with
    | none => exact List.prefix_append _ _
    | some arns =>
      refine List.IsPrefix.trans ?_ (ih _)
      rw [setDep_errors]
      by_cases hsel : selectARN (depPattern p t) [] arns = []
      · simp only [hsel, if_true]
        exact List.prefix_append _ _
      · simp only [hsel, if_false]
        exact List.prefix_rfl

theorem depLoop_depField_stable (f : AccountRoleType → Option (List GoStr)) (p : GoStr) :
    ∀ (ts : List AccountRoleType) (st : RolePhase) (t : AccountRoleType), t ∉ ts →
      (depLoop f p ts st).depField t = st.depField t := by
  intro ts
  induction ts with
  | nil => intro st t _; rfl
  | cons u ts ih =>
    intro st t ht
    have ht1 : t ≠ u := fun he => ht (he ▸ List.mem_cons_self u ts)
    have ht2 : t ∉ ts := fun hm => ht (List.mem_cons_of_mem u hm)
    simp only [depLoop]
    cases hf : f u with
    | none => cases t <;> simp [RolePhase.depField]
    | some arns =>
      rw [ih _ t ht2, setDep_depField, if_neg ht1]
      by_cases hsel : selectARN (depPattern p u) [] arns = [] <;>
        cases t <;> simp [hsel, RolePhase.depField]

theorem depLoop_cons_none (f : AccountRoleType → Option (List GoStr)) (p : GoStr)
    (t : AccountRoleType) (ts : List AccountRoleType) (st : RolePhase) (hf : f t = none) :
    depLoop f p (t :: ts) st =
      { st with errors := st.errors ++ [RoleErr.findDepErr t],
                depCalls := st.depCalls ++ [t], exited := true } := by
  simp only [depLoop, hf]

theorem depLoop_cons_some (f : AccountRoleType → Option (List GoStr)) (p : GoStr)
    (t : AccountRoleType) (ts : List AccountRoleType) (st : RolePhase) (arns : List GoStr)
    (hf : f t = some arns) :
    depLoop f p (t :: ts) st =
      depLoop f p ts
        ((if selectARN (depPattern p t) [] arns = [] then
            { st with errors := st.errors ++ [RoleErr.noDepRoles t],
                      depCalls := st.depCalls ++ [t], hasRoles := false }
          else { st with depCalls := st.depCalls ++ [t] }).setDep t
          (selectARN (depPattern p t) [] arns)) := by
  simp only [depLoop, hf]

theorem depLoop_success (f : AccountRoleType → Option (List GoStr)) (p : GoStr) :
    ∀ (ts : List AccountRoleType) (st : RolePhase),
      (depLoop f p ts st).exited = false → (depLoop f p ts st).hasRoles = true →
      st.exited = false ∧ st.hasRoles = true ∧
      (depLoop f p ts st).errors = st.errors ∧
      (depLoop f p ts st).depCalls = st.depCalls ++ ts ∧
      (∀ t, t ∈ ts → (depLoop f p ts st).depField t ≠ []) := by
  intro ts
  induction ts with
  | nil =>
    intro st h1 h2
    exact ⟨h1, h2, rfl, by simp [depLoop], fun t ht => absurd ht (List.not_mem_nil t)⟩
  | cons t ts ih =>
    intro st h1 h2
    cases hf : f t with
    | none =>
      rw [depLoop_cons_none f p t ts st hf] at h1
      simp at h1
    | some arns =>
      rw [depLoop_cons_some f p t ts st arns hf] at h1 h2 ⊢
      by_cases hsel : selectARN (depPattern p t) [] arns = []
      · rw [if_pos hsel] at h2
        have hmono := depLoop_hasRoles_mono f p ts _ h2
        rw [setDep_hasRoles] at hmono
        simp at hmono
      · rw [if_neg hsel] at h1 h2 ⊢
        obtain ⟨e1, e2, e3, e4, e5⟩ := ih _ h1 h2
        rw [setDep_exited] at e1
        rw [setDep_hasRoles] at e2
        rw [setDep_errors] at e3
        refine ⟨e1, e2, by rw [e3], ?_, ?_⟩
        · rw [e4, setDep_depCalls]
          simp
        · intro u hu
          rcases List.mem_cons.mp hu with rfl | hu
          · by_cases hut : u ∈ ts
            · exact e5 u hut
            · rw [depLoop_depField_stable f p ts _ u hut, setDep_depField, if_pos rfl]
              exact hsel
          · exact e5 u hu

theorem depLoop_total (f : AccountRoleType → Option (List GoStr)) (p : GoStr) :
    ∀ (ts : List AccountRoleType) (st : RolePhase),
      (∀ t ∈ ts, (f t).isSome = true) →
      (depLoop f p ts st).exited = st.exited ∧
      (depLoop f p ts st).depCalls = st.depCalls ++ ts ∧
      (∀ t, t ∈ ts → (depLoop f p ts st).depField t = [] →
        RoleErr.noDepRoles t ∈ (depLoop f p ts st).errors ∧
        (depLoop f p ts st).hasRoles = false) := by
  intro ts
  induction ts with
  | nil =>
    intro st _
    exact ⟨rfl, by simp [depLoop], fun t ht => absurd ht (List.not_mem_nil t)⟩
  | cons t ts ih =>
    intro st hall
    obtain ⟨arns, hf⟩ := Option.isSome_iff_exists.mp (hall t (List.mem_cons_self t ts))
    have hrest : ∀ u ∈ ts, (f u).isSome = true := fun u hu => hall u (List.mem_cons_of_mem t hu)
    rw [depLoop_cons_some f p t ts st arns hf]
    set sel := selectARN (depPattern p t) [] arns with hseldef
    set S := (if sel = [] then
        { st with errors := st.errors ++ [RoleErr.noDepRoles t],
                  depCalls := st.depCalls ++ [t], hasRoles := false }
      else { st with depCalls := st.depCalls ++ [t] }).setDep t sel with hS
    obtain ⟨g1, g2, g3⟩ := ih S hrest
    refine ⟨?_, ?_, ?_⟩
    · rw [g1, hS, setDep_exited]
      split <;> rfl
    · rw [g2, hS, setDep_depCalls]
      split <;> simp
    · intro u hu hfld
      rcases List.mem_cons.mp hu with rfl | hu
      · by_cases hut : u ∈ ts
        · exact g3 u hut hfld
        · rw [depLoop_depField_stable f p ts S u hut, hS, setDep_depField, if_pos rfl] at hfld
          constructor
          · have hpre := depLoop_errors_pre f p ts S
            apply hpre.subset
            rw [hS, setDep_errors, if_pos hfld]
            simp
          · apply depLoop_hasRoles_false
            rw [hS, setDep_hasRoles, if_pos hfld]
      · exact g3 u hu hfld

theorem rolePhase_some (arns : List GoStr) (fD : AccountRoleType → Option (List GoStr)) :
    rolePhase (some arns) fD =
      (if (installerSelect arns).roleARN = [] then
        { installerSelect arns with
            errors := (installerSelect arns).errors ++ [RoleErr.pleaseCreate], exited := true }
      else
        match getAccountRolePrefix (installerSelect arns).roleARN (AccountRoles .installer) with
        | none =>
          { installerSelect arns with
              errors := (installerSelect arns).errors ++ [RoleErr.pfxErr], exited := true }
        | some rolePfx =>
          if (depLoop fD rolePfx depRoleOrder { installerSelect arns with hasRoles := true }).exited then
            depLoop fD rolePfx depRoleOrder { installerSelect arns with hasRoles := true }
          else if (depLoop fD rolePfx depRoleOrder
              { installerSelect arns with hasRoles := true }).hasRoles then
            depLoop fD rolePfx depRoleOrder { installerSelect arns with hasRoles := true }
          else
            { depLoop fD rolePfx depRoleOrder { installerSelect arns with hasRoles := true } with
                errors := (depLoop fD rolePfx depRoleOrder
                  { installerSelect arns with hasRoles := true }).errors ++ [RoleErr.pleaseCreate],
                exited := true }) := rfl

theorem installerSelect_errors (arns : List GoStr)
    (h : (installerSelect arns).roleARN ≠ []) : (installerSelect arns).errors = [] := by
  unfold installerSelect at h ⊢
  by_cases hl : 1 < arns.length
  · rw [if_pos hl]; rfl
  · rw [if_neg hl] at h ⊢
    by_cases h1 : arns.length = 1
    · rw [if_pos h1]; rfl
    · rw [if_neg h1] at h
      exact absurd rfl h

theorem rolePhase_noARN (arns : List GoStr) (fD : AccountRoleType → Option (List GoStr))
    (h0 : (installerSelect arns).roleARN = []) :
    rolePhase (some arns) fD =
      { installerSelect arns with
          errors := (installerSelect arns).errors ++ [RoleErr.pleaseCreate], exited := true } := by
  rw [rolePhase_some, if_pos h0]

theorem rolePhase_pfxFail (arns : List GoStr) (fD : AccountRoleType → Option (List GoStr))
    (h0 : ¬(installerSelect arns).roleARN = [])
    (hp : getAccountRolePrefix (installerSelect arns).roleARN (AccountRoles .installer) = none) :
    rolePhase (some arns) fD =
      { installerSelect arns with
          errors := (installerSelect arns).errors ++ [RoleErr.pfxErr], exited := true } := by
  rw [rolePhase_some, if_neg h0, hp]

theorem rolePhase_depBranch (arns : List GoStr) (fD : AccountRoleType → Option (List GoStr))
    (rolePfx : GoStr) (h0 : ¬(installerSelect arns).roleARN = [])
    (hp : getAccountRolePrefix (installerSelect arns).roleARN (AccountRoles .installer) =
      some rolePfx) :
    rolePhase (some arns) fD =
      (if (depLoop fD rolePfx depRoleOrder { installerSelect arns with hasRoles := true }).exited =
          true then
        depLoop fD rolePfx depRoleOrder { installerSelect arns with hasRoles := true }
      else if (depLoop fD rolePfx depRoleOrder
          { installerSelect arns with hasRoles := true }).hasRoles = true then
        depLoop fD rolePfx depRoleOrder { installerSelect arns with hasRoles := true }
      else
        { depLoop fD rolePfx depRoleOrder { installerSelect arns with hasRoles := true } with
            errors := (depLoop fD rolePfx depRoleOrder
              { installerSelect arns with hasRoles := true }).errors ++ [RoleErr.pleaseCreate],
            exited := true }) := by
  rw [rolePhase_some, if_neg h0, hp]

theorem rolePhase_hasRoles_exit (iF : Option (List GoStr))
    (fD : AccountRoleType → Option (List GoStr)) :
    (rolePhase iF fD).hasRoles = false → (rolePhase iF fD).exited = true := by
  cases iF with
  | none => intro _; rfl
  | some arns =>
    by_cases h0 : (installerSelect arns).roleARN = []
    · rw [rolePhase_noARN arns fD h0]; intro _; rfl
    · cases hp : getAccountRolePrefix (installerSelect arns).roleARN (AccountRoles .installer) with
      | none => rw [rolePhase_pfxFail arns fD h0 hp]; intro _; rfl
      | some rolePfx =>
        rw [rolePhase_depBranch arns fD rolePfx h0 hp]
        set r := depLoop fD rolePfx depRoleOrder { installerSelect arns with hasRoles := true }
          with hr
        by_cases hre : r.exited = true
        · rw [if_pos hre]; intro _; exact hre
        · rw [if_neg hre]
          by_cases hhr : r.hasRoles = true
          · rw [if_pos hhr]
            intro hfalse
            rw [hhr] at hfalse
            exact absurd hfalse (by simp)
          · rw [if_neg hhr]; intro _; rfl

/-- C1: the create request is issued only when all four account-role ARNs are
resolved to non-empty strings.  Whenever the account-role resolution phase
finishes without reaching `os.Exit(1)` — the only way `run` goes on to build
the request and call `CreateManagedService` — all four ARNs are non-empty;
contrapositively, if any of the four would be empty the phase exits first. -/
theorem c1_create_requires_all_account_roles (iF : Option (List GoStr))
    (fD : AccountRoleType → Option (List GoStr))
    (h : (rolePhase iF fD).exited = false) :
    (rolePhase iF fD).roleARN ≠ [] ∧ (rolePhase iF fD).supportRoleARN ≠ [] ∧
    (rolePhase iF fD).controlPlaneRoleARN ≠ [] ∧ (rolePhase iF fD).workerRoleARN ≠ [] := by
  cases iF with
  | none => simp [rolePhase] at h
  | some arns =>
    by_cases h0 : (installerSelect arns).roleARN = []
    · rw [rolePhase_noARN arns fD h0] at h
      simp at h
    · cases hp : getAccountRolePrefix (installerSelect arns).roleARN (AccountRoles .installer) with
      | none =>
        rw [rolePhase_pfxFail arns fD h0 hp] at h
        simp at h
      | some rolePfx =>
        rw [rolePhase_depBranch arns fD rolePfx h0 hp] at h ⊢
        by_cases hre : (depLoop fD rolePfx depRoleOrder
            { installerSelect arns with hasRoles := true }).exited = true
        · rw [if_pos hre] at h
          rw [h] at hre
          simp at hre
        · rw [if_neg hre] at h ⊢
          by_cases hhr : (depLoop fD rolePfx depRoleOrder
              { installerSelect arns with hasRoles := true }).hasRoles = true
          · rw [if_pos hhr] at h ⊢
            obtain ⟨e1, e2, e3, e4, e5⟩ :=
              depLoop_success fD rolePfx depRoleOrder
                { installerSelect arns with hasRoles := true } h hhr
            refine ⟨?_, ?_, ?_, ?_⟩
            · have hst : (depLoop fD rolePfx depRoleOrder
                  { installerSelect arns with hasRoles := true }).roleARN =
                    (installerSelect arns).roleARN :=
                depLoop_depField_stable fD rolePfx depRoleOrder
                  { installerSelect arns with hasRoles := true } AccountRoleType.installer
                  (by decide)
              rw [hst]
              exact h0
            · exact e5 AccountRoleType.support (by decide)
            · exact e5 AccountRoleType.controlPlane (by decide)
            · exact e5 AccountRoleType.worker (by decide)
          · rw [if_neg hhr] at h
            simp at h

def wIF1 : Option (List GoStr) := some [gs "arn:aws:iam::123456789012:role/Test-Installer-Role"]

def wFD1 : AccountRoleType → Option (List GoStr) :=
  fun t => some [gs "arn:aws:iam::123456789012:role/Test-" ++ (AccountRoles t).Name ++ gs "-Role"]

/-- Witness for C1 at a concrete successful resolution. -/
theorem c1_create_requires_all_account_roles_witness :
    (rolePhase wIF1 wFD1).exited = false ∧
    ((rolePhase wIF1 wFD1).roleARN ≠ [] ∧ (rolePhase wIF1 wFD1).supportRoleARN ≠ [] ∧
     (rolePhase wIF1 wFD1).controlPlaneRoleARN ≠ [] ∧ (rolePhase wIF1 wFD1).workerRoleARN ≠ []) :=
  ⟨by decide, c1_create_requires_all_account_roles wIF1 wFD1 (by decide)⟩

/-- C5: with zero installer-role matches the command reports the actionable
"create account-roles" error, exits non-zero, and performs no `FindRoleARNs`
call for the three dependent categories. -/
theorem c5_zero_installer_matches (fD : AccountRoleType → Option (List GoStr)) :
    RoleErr.noInstallerRoles ∈ (rolePhase (some []) fD).errors ∧
    (rolePhase (some []) fD).exited = true ∧
    (rolePhase (some []) fD).depCalls = [] := by
  have h0 : (installerSelect ([] : List GoStr)).roleARN = [] := rfl
  rw [rolePhase_noARN [] fD h0]
  refine ⟨?_, rfl, rfl⟩
  show RoleErr.noInstallerRoles ∈ (installerSelect []).errors ++ [RoleErr.pleaseCreate]
  have he : (installerSelect ([] : List GoStr)).errors = [RoleErr.noInstallerRoles] := rfl
  rw [he]
  simp

/-- C2 counterexample: a failed add-on parameter-schema fetch (`GetAddOn`
returning an error, modelled by `none`) is reported but does not terminate
the process — `CreateManagedService` is still called and no exit happens,
contradicting the claim that every step failure exits before later steps. -/
theorem c2_addon_failure_not_fatal_cex :
    RunEvent.reportAddOnErr ∈ paramAndCreatePhase none true ∧
    RunEvent.callCreate ∈ paramAndCreatePhase none true ∧
    RunEvent.exit1 ∉ paramAndCreatePhase none true := by decide

/-- C2 (amended): every step failure in the modelled workflow is reported and
fatal before later steps, except the add-on parameter-schema fetch: a failed
role-resolution step always exits, and a failed create call exits, but a
failed `GetAddOn` is only reported and execution continues to the create
request. -/
theorem c2_amended_failures_fatal_except_addon :
    (∀ (iF : Option (List GoStr)) (fD : AccountRoleType → Option (List GoStr)),
      (rolePhase iF fD).errors ≠ [] → (rolePhase iF fD).exited = true) ∧
    (∀ c : Bool, RunEvent.reportAddOnErr ∈ paramAndCreatePhase none c ∧
      RunEvent.callCreate ∈ paramAndCreatePhase none c) ∧
    (∀ a : Option (List GoStr), RunEvent.exit1 ∈ paramAndCreatePhase a false) := by
  refine ⟨?_, by decide, ?_⟩
  · intro iF fD herr
    cases iF with
    | none => rfl
    | some arns =>
      by_cases h0 : (installerSelect arns).roleARN = []
      · rw [rolePhase_noARN arns fD h0]
      · cases hp : getAccountRolePrefix (installerSelect arns).roleARN
            (AccountRoles .installer) with
        | none => rw [rolePhase_pfxFail arns fD h0 hp]
        | some rolePfx =>
          rw [rolePhase_depBranch arns fD rolePfx h0 hp] at herr ⊢
          by_cases hre : (depLoop fD rolePfx depRoleOrder
              { installerSelect arns with hasRoles := true }).exited = true
          · rw [if_pos hre]
            exact hre
          · rw [if_neg hre] at herr ⊢
            by_cases hhr : (depLoop fD rolePfx depRoleOrder
                { installerSelect arns with hasRoles := true }).hasRoles = true
            · rw [if_pos hhr] at herr ⊢
              have hre2 : (depLoop fD rolePfx depRoleOrder
                  { installerSelect arns with hasRoles := true }).exited = false := by
                cases hx : (depLoop fD rolePfx depRoleOrder
                    { installerSelect arns with hasRoles := true }).exited
                · rfl
                · exact absurd hx hre
              obtain ⟨e1, e2, e3, e4, e5⟩ :=
                depLoop_success fD rolePfx depRoleOrder
                  { installerSelect arns with hasRoles := true } hre2 hhr
              have hie : (installerSelect arns).errors = [] := installerSelect_errors arns h0
              have hst : ({ installerSelect arns with hasRoles := true } : RolePhase).errors =
                  [] := hie
              rw [e3, hst] at herr
              exact absurd rfl herr
            · rw [if_neg hhr]
  · intro a
    cases a with
    | none => decide
    | some v => simp [paramAndCreatePhase]

/-- Witness for C2 (amended): concrete instances of each conjunct. -/
theorem c2_amended_failures_fatal_except_addon_witness :
    (rolePhase none (fun _ => none)).exited = true ∧
    (RunEvent.reportAddOnErr ∈ paramAndCreatePhase none true ∧
     RunEvent.callCreate ∈ paramAndCreatePhase none true) ∧
    RunEvent.exit1 ∈ paramAndCreatePhase (some []) false :=
  ⟨c2_amended_failures_fatal_except_addon.1 none (fun _ => none) (by decide),
   c2_amended_failures_fatal_except_addon.2.1 true,
   c2_amended_failures_fatal_except_addon.2.2 (some [])⟩

theorem getLastD_cons_mem {α : Type} : ∀ (l : List α) (a d : α), (a :: l).getLastD d ∈ a :: l
  | [], a, d => by simp [List.getLastD_cons]
  | b :: l, a, d => by
    rw [List.getLastD_cons]
    exact List.mem_cons_of_mem a (getLastD_cons_mem l b a)

def cexARNs : List GoStr :=
  [gs "arn:aws:iam::123456789012:role/ManagedOpenShift-Installer-Role",
   gs "arn:aws:iam::123456789012:role/Other-Installer-Role"]

/-- C3 counterexample: a two-element installer-role list whose first element
embeds `<default-prefix>-Installer-Role`; the claim says no warning is
emitted when a default-prefix match exists, but the code warns whenever the
list has more than one element. -/
theorem c3_warning_despite_default_match_cex :
    1 < cexARNs.length ∧
    (∃ r ∈ cexARNs, goContains r (depPattern DefaultPrefix .installer) = true) ∧
    (installerSelect cexARNs).warned = true := by decide

/-- C3 (amended): with more than one installer ARN the non-uniqueness warning
is always emitted, even when a default-prefix match exists; the selected ARN
is the last element embedding `<default-prefix>-Installer-Role` when any
element does (so a unique match is selected regardless of its position), and
the first element otherwise. -/
theorem c3_amended_multi_selection (arns : List GoStr) (h : 1 < arns.length) :
    (installerSelect arns).warned = true ∧
    (installerSelect arns).roleARN =
      (arns.filter (fun r => goContains r (depPattern DefaultPrefix .installer))).getLastD
        (arns.headD []) ∧
    ((∃ r ∈ arns, goContains r (depPattern DefaultPrefix .installer) = true) →
      goContains ((installerSelect arns).roleARN) (depPattern DefaultPrefix .installer) = true) := by
  unfold installerSelect
  rw [if_pos h]
  refine ⟨rfl, selectARN_eq _ _ _, ?_⟩
  intro hex
  obtain ⟨r, hr, hcont⟩ := hex
  show goContains
    (selectARN (depPattern DefaultPrefix .installer) (arns.headD []) arns)
    (depPattern DefaultPrefix .installer) = true
  rw [selectARN_eq]
  have hmem : r ∈ arns.filter (fun x => goContains x (depPattern DefaultPrefix .installer)) :=
    List.mem_filter.mpr ⟨hr, hcont⟩
  cases hft : arns.filter (fun x => goContains x (depPattern DefaultPrefix .installer)) with
  | nil =>
    rw [hft] at hmem
    exact absurd hmem (List.not_mem_nil r)
  | cons a l =>
    have hlm := getLastD_cons_mem l a (arns.headD [])
    have hlf : (a :: l).getLastD (arns.headD []) ∈
        arns.filter (fun x => goContains x (depPattern DefaultPrefix .installer)) := by
      rw [hft]
      exact hlm
    exact (List.mem_filter.mp hlf).2

/-- Witness for C3 (amended) at the concrete two-element list. -/
theorem c3_amended_multi_selection_witness :
    (installerSelect cexARNs).warned = true ∧
    (installerSelect cexARNs).roleARN =
      (cexARNs.filter (fun r => goContains r (depPattern DefaultPrefix .installer))).getLastD
        (cexARNs.headD []) ∧
    ((∃ r ∈ cexARNs, goContains r (depPattern DefaultPrefix .installer) = true) →
      goContains ((installerSelect cexARNs).roleARN)
        (depPattern DefaultPrefix .installer) = true) :=
  c3_amended_multi_selection cexARNs (by decide)

/-- C6: the computed operator role ARN is exactly
`arn:aws:iam::<account-id>:role/<prefix>-<namespace>-<name>` with the
role-name part replaced by its first 64 characters when the full name is
longer than 64 characters and kept unchanged otherwise; the role-name part
always has length `min (full length) 64`, so a long name is cut to exactly
its first 64 characters. -/
theorem c6_operator_role_arn_truncation (pfx : GoStr) (op : Operator) (creator : Creator) :
    getOperatorRoleArn pfx op creator =
      gs "arn:aws:iam::" ++ creator.AccountID ++ gs ":role/" ++
        (if 64 < (pfx ++ gs "-" ++ op.Namespace ++ gs "-" ++ op.Name).length then
          (pfx ++ gs "-" ++ op.Namespace ++ gs "-" ++ op.Name).take 64
        else pfx ++ gs "-" ++ op.Namespace ++ gs "-" ++ op.Name) ∧
    (operatorRoleName pfx op).length =
      min (pfx ++ gs "-" ++ op.Namespace ++ gs "-" ++ op.Name).length 64 := by
  constructor
  · rfl
  · simp only [operatorRoleName]
    by_cases h : 64 < (pfx ++ gs "-" ++ op.Namespace ++ gs "-" ++ op.Name).length
    · rw [if_pos h, List.length_take]
      omega
    · rw [if_neg h]
      omega

theorem splitN_one (sep : Char) (s : GoStr) : splitN sep 1 s = [s] := rfl

theorem splitN_step2 (sep : Char) (s : GoStr) :
    splitN sep 2 s =
      (match splitOnce sep s with
       | none => [s]
       | some (a, b) => a :: splitN sep 1 b) := rfl

theorem splitN_step3 (sep : Char) (s : GoStr) :
    splitN sep 3 s =
      (match splitOnce sep s with
       | none => [s]
       | some (a, b) => a :: splitN sep 2 b) := rfl

theorem splitN_step4 (sep : Char) (s : GoStr) :
    splitN sep 4 s =
      (match splitOnce sep s with
       | none => [s]
       | some (a, b) => a :: splitN sep 3 b) := rfl

theorem splitN_step5 (sep : Char) (s : GoStr) :
    splitN sep 5 s =
      (match splitOnce sep s with
       | none => [s]
       | some (a, b) => a :: splitN sep 4 b) := rfl

theorem splitN_step6 (sep : Char) (s : GoStr) :
    splitN sep 6 s =
      (match splitOnce sep s with
       | none => [s]
       | some (a, b) => a :: splitN sep 5 b) := rfl

/-- A role ARN of the standard AWS shape,
`arn:<partition>:<service>:<region>:<account>:<res1>/<rest>`, used to state
the role-prefix derivation claim. -/
def mkRoleARN (pt sv rg ac res1 rest : GoStr) : GoStr :=
  gs "arn:" ++ pt ++ gs ":" ++ sv ++ gs ":" ++ rg ++ gs ":" ++ ac ++ gs ":" ++
    res1 ++ gs "/" ++ rest

theorem gs_arnc : gs "arn:" = ['a', 'r', 'n', ':'] := rfl

theorem gs_colon : gs ":" = [':'] := rfl

theorem gs_slash : gs "/" = ['/'] := rfl

theorem mkRoleARN_norm (pt sv rg ac res1 rest : GoStr) :
    mkRoleARN pt sv rg ac res1 rest =
      (['a', 'r', 'n'] : GoStr) ++ ':' ::
        (pt ++ ':' :: (sv ++ ':' :: (rg ++ ':' :: (ac ++ ':' :: (res1 ++ '/' :: rest))))) := by
  simp [mkRoleARN, gs_arnc, gs_colon, gs_slash, List.append_assoc]

theorem arnParse_mk (pt sv rg ac res1 rest : GoStr)
    (h1 : ':' ∉ pt) (h2 : ':' ∉ sv) (h3 : ':' ∉ rg) (h4 : ':' ∉ ac) :
    arnParse (mkRoleARN pt sv rg ac res1 rest) =
      some ⟨pt, sv, rg, ac, res1 ++ '/' :: rest⟩ := by
  rw [mkRoleARN_norm]
  have hpre : goHasPre
      ((['a', 'r', 'n'] : GoStr) ++ ':' ::
        (pt ++ ':' :: (sv ++ ':' :: (rg ++ ':' :: (ac ++ ':' :: (res1 ++ '/' :: rest))))))
      (gs "arn:") = true := by
    apply decide_eq_true
    exact ⟨pt ++ ':' :: (sv ++ ':' :: (rg ++ ':' :: (ac ++ ':' :: (res1 ++ '/' :: rest)))), rfl⟩
  have e0 := splitOnce_append ':' (['a', 'r', 'n'] : GoStr)
    (pt ++ ':' :: (sv ++ ':' :: (rg ++ ':' :: (ac ++ ':' :: (res1 ++ '/' :: rest)))))
    (by decide)
  have e1 := splitOnce_append ':' pt
    (sv ++ ':' :: (rg ++ ':' :: (ac ++ ':' :: (res1 ++ '/' :: rest)))) h1
  have e2 := splitOnce_append ':' sv (rg ++ ':' :: (ac ++ ':' :: (res1 ++ '/' :: rest))) h2
  have e3 := splitOnce_append ':' rg (ac ++ ':' :: (res1 ++ '/' :: rest)) h3
  have e4 := splitOnce_append ':' ac (res1 ++ '/' :: rest) h4
  simp only [arnParse, hpre, if_true, splitN_step6, e0, splitN_step5, e1, splitN_step4, e2,
    splitN_step3, e3, splitN_step2, e4, splitN_one]

theorem getAccountRolePrefix_mk (pt sv rg ac res1 rest : GoStr) (role : AccountRole)
    (h1 : ':' ∉ pt) (h2 : ':' ∉ sv) (h3 : ':' ∉ rg) (h4 : ':' ∉ ac) (h5 : '/' ∉ res1) :
    getAccountRolePrefix (mkRoleARN pt sv rg ac res1 rest) role =
      some (goTrimSuffix rest (gs "-" ++ role.Name ++ gs "-Role")) := by
  have e5 := splitOnce_append '/' res1 rest h5
  simp only [getAccountRolePrefix, arnParse_mk pt sv rg ac res1 rest h1 h2 h3 h4,
    splitN_step2, e5, splitN_one]

theorem depLoop_depField_shape (f : AccountRoleType → Option (List GoStr)) (p : GoStr) :
    ∀ (ts : List AccountRoleType) (st : RolePhase) (t : AccountRoleType),
      (depLoop f p ts st).depField t = st.depField t ∨
      ∃ arns, f t = some arns ∧
        (depLoop f p ts st).depField t = selectARN (depPattern p t) [] arns := by
  intro ts
  induction ts with
  | nil => intro st t; exact Or.inl rfl
  | cons u ts ih =>
    intro st t
    cases hf : f u with
    | none =>
      rw [depLoop_cons_none f p u ts st hf]
      left
      cases t <;> rfl
    | some arns =>
      rw [depLoop_cons_some f p u ts st arns hf]
      rcases ih ((if selectARN (depPattern p u) [] arns = [] then
          { st with errors := st.errors ++ [RoleErr.noDepRoles u],
                    depCalls := st.depCalls ++ [u], hasRoles := false }
        else { st with depCalls := st.depCalls ++ [u] }).setDep u
          (selectARN (depPattern p u) [] arns)) t with hL | hR
      · rw [hL, setDep_depField]
        by_cases hut : t = u
        · right
          refine ⟨arns, hut ▸ hf, ?_⟩
          rw [if_pos hut, hut]
        · left
          rw [if_neg hut]
          split <;> (cases t <;> rfl)
      · exact Or.inr hR

/-- C4: the role prefix derived from a selected installer-role ARN of the
standard shape is the ARN resource's part after the first slash with the
`-<RoleName>-Role` suffix stripped; each dependent category is only ever
resolved to an ARN containing `<prefix>-<RoleName>-Role`; with all three
`FindRoleARNs` calls answering, the loop never exits early, attempts all
three categories, reports `noDepRoles` for every category left empty and
clears `hasRoles`, and a cleared `hasRoles` makes the phase exit. -/
theorem c4_prefix_anchored_resolution
    (pt sv rg ac res1 rest : GoStr) (role : AccountRole)
    (fD : AccountRoleType → Option (List GoStr)) (pfx : GoStr) (st : RolePhase)
    (h1 : ':' ∉ pt) (h2 : ':' ∉ sv) (h3 : ':' ∉ rg) (h4 : ':' ∉ ac) (h5 : '/' ∉ res1)
    (hsup : st.supportRoleARN = []) (hcp : st.controlPlaneRoleARN = [])
    (hw : st.workerRoleARN = [])
    (hfd : ∀ t ∈ depRoleOrder, (fD t).isSome = true) :
    getAccountRolePrefix (mkRoleARN pt sv rg ac res1 rest) role =
      some (goTrimSuffix rest (gs "-" ++ role.Name ++ gs "-Role")) ∧
    (∀ t ∈ depRoleOrder, (depLoop fD pfx depRoleOrder st).depField t ≠ [] →
      goContains ((depLoop fD pfx depRoleOrder st).depField t) (depPattern pfx t) = true) ∧
    (depLoop fD pfx depRoleOrder st).exited = st.exited ∧
    (depLoop fD pfx depRoleOrder st).depCalls = st.depCalls ++ depRoleOrder ∧
    (∀ t ∈ depRoleOrder, (depLoop fD pfx depRoleOrder st).depField t = [] →
      RoleErr.noDepRoles t ∈ (depLoop fD pfx depRoleOrder st).errors ∧
      (depLoop fD pfx depRoleOrder st).hasRoles = false) ∧
    (∀ (iF : Option (List GoStr)) (fD2 : AccountRoleType → Option (List GoStr)),
      (rolePhase iF fD2).hasRoles = false → (rolePhase iF fD2).exited = true) := by
  obtain ⟨g1, g2, g3⟩ := depLoop_total fD pfx depRoleOrder st hfd
  refine ⟨getAccountRolePrefix_mk pt sv rg ac res1 rest role h1 h2 h3 h4 h5, ?_, g1, g2, g3,
    rolePhase_hasRoles_exit⟩
  intro t ht hne
  rcases depLoop_depField_shape fD pfx depRoleOrder st t with hL | ⟨arns, hfa, hReq⟩
  · exfalso
    apply hne
    rw [hL]
    simp only [depRoleOrder, List.mem_cons, List.not_mem_nil, or_false] at ht
    rcases ht with rfl | rfl | rfl
    · exact hsup
    · exact hcp
    · exact hw
  · rw [hReq]
    rcases selectARN_default_or (depPattern pfx t) arns [] with hd | hm
    · exfalso
      apply hne
      rw [hReq, hd]
    · exact hm.1

def wFD4 : AccountRoleType → Option (List GoStr) :=
  fun t => some [gs "arn:aws:iam::123456789012:role/Test-" ++ (AccountRoles t).Name ++ gs "-Role"]

/-- Witness for C4 at a concrete well-formed installer ARN and answering
dependent lookups. -/
theorem c4_prefix_anchored_resolution_witness :
    getAccountRolePrefix (mkRoleARN (gs "aws") (gs "iam") [] (gs "123456789012") (gs "role")
        (gs "Test-Installer-Role")) (AccountRoles .installer) =
      some (goTrimSuffix (gs "Test-Installer-Role")
        (gs "-" ++ (AccountRoles .installer).Name ++ gs "-Role")) ∧
    (∀ t ∈ depRoleOrder, (depLoop wFD4 (gs "Test") depRoleOrder initialPhase).depField t ≠ [] →
      goContains ((depLoop wFD4 (gs "Test") depRoleOrder initialPhase).depField t)
        (depPattern (gs "Test") t) = true) ∧
    (depLoop wFD4 (gs "Test") depRoleOrder initialPhase).exited = initialPhase.exited ∧
    (depLoop wFD4 (gs "Test") depRoleOrder initialPhase).depCalls =
      initialPhase.depCalls ++ depRoleOrder ∧
    (∀ t ∈ depRoleOrder, (depLoop wFD4 (gs "Test") depRoleOrder initialPhase).depField t = [] →
      RoleErr.noDepRoles t ∈ (depLoop wFD4 (gs "Test") depRoleOrder initialPhase).errors ∧
      (depLoop wFD4 (gs "Test") depRoleOrder initialPhase).hasRoles = false) ∧
    (∀ (iF : Option (List GoStr)) (fD2 : AccountRoleType → Option (List GoStr)),
      (rolePhase iF fD2).hasRoles = false → (rolePhase iF fD2).exited = true) :=
  c4_prefix_anchored_resolution (gs "aws") (gs "iam") [] (gs "123456789012") (gs "role")
    (gs "Test-Installer-Role") (AccountRoles .installer) wFD4 (gs "Test") initialPhase
    (by decide) (by decide) (by decide) (by decide) (by decide) rfl rfl rfl (by decide)

/-- C7: an operator with a non-empty minimum version that the cluster's minor
version does not meet (per the version check) contributes no entry; an
operator with no minimum version, or whose minimum the check accepts,
contributes exactly one entry carrying its name and namespace.  The check is
abstract here; the source's `ocm.CheckSupportedVersion` lives outside
`src/`. -/
theorem c7_operator_version_gating (check : GoStr → GoStr → Option Bool) (minor pfx : GoStr)
    (creator : Creator) (ops : List Operator)
    (hc : ∀ op ∈ ops, op.MinVersion ≠ [] → (check minor op.MinVersion).isSome = true) :
    buildOperatorRoles check minor pfx creator ops =
      some ((ops.filter (fun op =>
          decide (op.MinVersion = []) || decide (check minor op.MinVersion = some true))).map
        (fun op => OperatorIAMRole.mk op.Name op.Namespace (getOperatorRoleArn pfx op creator))) := by
  induction ops with
  | nil => rfl
  | cons op ops ih =>
    have hrest : ∀ o ∈ ops, o.MinVersion ≠ [] → (check minor o.MinVersion).isSome = true :=
      fun o ho h => hc o (List.mem_cons_of_mem op ho) h
    by_cases hmv : op.MinVersion = []
    · simp only [buildOperatorRoles, if_pos hmv, ih hrest, List.filter_cons]
      simp [hmv]
    · simp only [buildOperatorRoles, if_neg hmv]
      obtain ⟨b, hb⟩ := Option.isSome_iff_exists.mp (hc op (List.mem_cons_self op ops) hmv)
      rw [hb]
      cases b with
      | false =>
        simp only [ih hrest, List.filter_cons]
        have hcond : (decide (op.MinVersion = []) ||
            decide (check minor op.MinVersion = some true)) = false := by
          simp [hmv, hb]
        rw [hcond]
        simp
      | true =>
        simp only [ih hrest, List.filter_cons]
        have hcond : (decide (op.MinVersion = []) ||
            decide (check minor op.MinVersion = some true)) = true := by
          simp [hb]
        rw [hcond]
        simp

def wOps7 : List Operator :=
  [⟨gs "cloud-credential-operator-iam-ro-creds", gs "openshift-cloud-credential-operator", []⟩,
   ⟨gs "ebs-cloud-credentials", gs "openshift-cluster-csi-drivers", gs "4.10"⟩,
   ⟨gs "cloud-credentials", gs "openshift-image-registry", gs "4.9"⟩]

/-- Witness for C7 with the spec-modelled version check on cluster minor
`4.9`: the `4.10`-gated operator is excluded, the others contribute one entry
each. -/
theorem c7_operator_version_gating_witness :
    buildOperatorRoles CheckSupportedVersion (gs "4.9") (gs "p") ⟨gs "123456789012"⟩ wOps7 =
      some ((wOps7.filter (fun op =>
          decide (op.MinVersion = []) ||
            decide (CheckSupportedVersion (gs "4.9") op.MinVersion = some true))).map
        (fun op => OperatorIAMRole.mk op.Name op.Namespace
          (getOperatorRoleArn (gs "p") op ⟨gs "123456789012"⟩))) :=
  c7_operator_version_gating CheckSupportedVersion (gs "4.9") (gs "p") ⟨gs "123456789012"⟩
    wOps7 (by decide)

theorem applyParams_lookup (fl : GoStr → Option GoStr) :
    ∀ (ids : List GoStr) (m0 : GoStr → Option GoStr) (k : GoStr),
      applyAddOnParameters fl ids m0 k =
        if k ∈ ids ∧ (fl k).isSome = true then fl k else m0 k := by
  intro ids
  induction ids with
  | nil =>
    intro m0 k
    simp [applyAddOnParameters]
  | cons pid ids ih =>
    intro m0 k
    have hcons : applyAddOnParameters fl (pid :: ids) m0 =
        applyAddOnParameters fl ids
          (match fl pid with
           | some v => fun k2 => if k2 = pid then some v else m0 k2
           | none => m0) := rfl
    rw [hcons, ih]
    cases hfl : fl pid with
    | none =>
      by_cases hk : k = pid
      · subst hk
        simp [hfl]
      · simp [List.mem_cons, hk]
    | some v =>
      by_cases hk : k = pid
      · subst hk
        by_cases hin : k ∈ ids <;> simp [hfl, hin, List.mem_cons]
      · simp [List.mem_cons, hk]

/-- C8: after the add-on parameter fetch, the parameter map holds, for every
parameter ID that matches a registered flag, that flag's string value under
the ID; flags matching no parameter ID add nothing, and parameters matching
no flag stay unset. -/
theorem c8_parameter_flag_mapping (fl : GoStr → Option GoStr) (ids : List GoStr) (k : GoStr) :
    applyAddOnParameters fl ids (fun _ => none) k = if k ∈ ids then fl k else none := by
  rw [applyParams_lookup]
  by_cases hin : k ∈ ids
  · cases hfk : fl k with
    | none => simp [hin, hfk]
    | some v => simp [hin, hfk]
  · simp [hin]

/-- C9: the list command asks for exactly 1000 records in its single call and
prints the header row followed by one tab-separated `ID`/`SERVICE`/`STATE`
row per returned record, in order; zero records yield only the header. -/
theorem c9_list_services_output (fetch : Nat → Option (List ManagedService))
    (records : List ManagedService) :
    listRequestSize = 1000 ∧
    listServicesRun fetch = Option.map listServicesLines (fetch listRequestSize) ∧
    listServicesLines records =
      gs "ID\tSERVICE\tSTATE\n" ::
        records.map (fun s =>
          s.id ++ gs "\t" ++ s.service ++ gs "\t" ++ s.serviceState ++ gs "\n") ∧
    listServicesLines [] = [gs "ID\tSERVICE\tSTATE\n"] := by
  refine ⟨rfl, ?_, rfl, rfl⟩
  cases h : fetch listRequestSize <;> simp [listServicesRun, h]

theorem operatorRoleName_ne_nil (pfx : GoStr) (op : Operator) : operatorRoleName pfx op ≠ [] := by
  have h1 : (gs "-").length = 1 := rfl
  have hlen : 2 ≤ (pfx ++ gs "-" ++ op.Namespace ++ gs "-" ++ op.Name).length := by
    simp only [List.length_append, h1]
    omega
  simp only [operatorRoleName]
  by_cases h : 64 < (pfx ++ gs "-" ++ op.Namespace ++ gs "-" ++ op.Name).length
  · rw [if_pos h]
    intro hnil
    have hl := congrArg List.length hnil
    rw [List.length_take] at hl
    simp only [List.length_nil] at hl
    omega
  · rw [if_neg h]
    intro hnil
    rw [hnil] at hlen
    simp at hlen

theorem splitN_operator_arn (acct roleName : GoStr) (hacct : '/' ∉ acct) :
    splitN '/' 2 (gs "arn:aws:iam::" ++ acct ++ gs ":role/" ++ roleName) =
      [gs "arn:aws:iam::" ++ acct ++ gs ":role", roleName] := by
  have hshape : gs "arn:aws:iam::" ++ acct ++ gs ":role/" ++ roleName =
      (gs "arn:aws:iam::" ++ acct ++ gs ":role") ++ '/' :: roleName := by
    have hr : gs ":role/" = gs ":role" ++ ['/'] := rfl
    rw [hr]
    simp [List.append_assoc]
  have hno : '/' ∉ gs "arn:aws:iam::" ++ acct ++ gs ":role" := by
    intro hm
    rcases List.mem_append.mp hm with hm1 | hm2
    · rcases List.mem_append.mp hm1 with hm3 | hm4
      · exact absurd hm3 (by decide)
      · exact hacct hm4
    · exact absurd hm2 (by decide)
  rw [hshape, splitN_step2, splitOnce_append '/' _ roleName hno]
  rfl

theorem buildOperatorRoles_mem (check : GoStr → GoStr → Option Bool) (minor pfx : GoStr)
    (creator : Creator) :
    ∀ (ops : List Operator) (roles : List OperatorIAMRole),
      buildOperatorRoles check minor pfx creator ops = some roles →
      ∀ r ∈ roles, ∃ op ∈ ops,
        r = OperatorIAMRole.mk op.Name op.Namespace (getOperatorRoleArn pfx op creator) := by
  intro ops
  induction ops with
  | nil =>
    intro roles h r hr
    simp only [buildOperatorRoles, Option.some.injEq] at h
    subst h
    exact absurd hr (List.not_mem_nil r)
  | cons op ops ih =>
    intro roles h r hr
    simp only [buildOperatorRoles] at h
    by_cases hmv : op.MinVersion = []
    · rw [if_pos hmv] at h
      cases hrec : buildOperatorRoles check minor pfx creator ops with
      | none => rw [hrec] at h; simp at h
      | some rs =>
        rw [hrec] at h
        simp only [Option.map_some', Option.some.injEq] at h
        subst h
        rcases List.mem_cons.mp hr with rfl | hrm
        · exact ⟨op, List.mem_cons_self op ops, rfl⟩
        · obtain ⟨o, ho, hee⟩ := ih rs hrec r hrm
          exact ⟨o, List.mem_cons_of_mem op ho, hee⟩
    · rw [if_neg hmv] at h
      cases hcb : check minor op.MinVersion with
      | none => rw [hcb] at h; simp at h
      | some b =>
        rw [hcb] at h
        cases b with
        | false =>
          obtain ⟨o, ho, hee⟩ := ih roles h r hr
          exact ⟨o, List.mem_cons_of_mem op ho, hee⟩
        | true =>
          cases hrec : buildOperatorRoles check minor pfx creator ops with
          | none => rw [hrec] at h; simp at h
          | some rs =>
            rw [hrec] at h
            simp only [Option.map_some', Option.some.injEq] at h
            subst h
            rcases List.mem_cons.mp hr with rfl | hrm
            · exact ⟨op, List.mem_cons_self op ops, rfl⟩
            · obtain ⟨o, ho, hee⟩ := ih rs hrec r hrm
              exact ⟨o, List.mem_cons_of_mem op ho, hee⟩

/-- C10: every role entry appended to the operator IAM role list carries an
ARN of the form `arn:aws:iam::<account>:role/<name>`; splitting it at the
first slash yields exactly two pieces whose second piece is the computed
(possibly truncated) role name and is non-empty — so the
`strings.SplitN(role.RoleARN, "/", 2)[1]` extraction in the
name-availability loop is in bounds and cannot panic. -/
theorem c10_operator_arn_split_safe (check : GoStr → GoStr → Option Bool)
    (minor pfx : GoStr) (creator : Creator) (ops : List Operator)
    (roles : List OperatorIAMRole) (hacct : '/' ∉ creator.AccountID)
    (h : buildOperatorRoles check minor pfx creator ops = some roles) :
    ∀ r ∈ roles,
      (splitN '/' 2 r.RoleARN).length = 2 ∧
      extractedRoleName r ≠ [] ∧
      ∃ op ∈ ops, r.RoleARN = getOperatorRoleArn pfx op creator ∧
        extractedRoleName r = operatorRoleName pfx op := by
  intro r hr
  obtain ⟨op, hop, hee⟩ := buildOperatorRoles_mem check minor pfx creator ops roles h r hr
  have harn : r.RoleARN = getOperatorRoleArn pfx op creator := by rw [hee]
  have hsp : splitN '/' 2 r.RoleARN =
      [gs "arn:aws:iam::" ++ creator.AccountID ++ gs ":role", operatorRoleName pfx op] := by
    rw [harn]
    exact splitN_operator_arn creator.AccountID (operatorRoleName pfx op) hacct
  refine ⟨?_, ?_, op, hop, harn, ?_⟩
  · rw [hsp]
    rfl
  · show (splitN '/' 2 r.RoleARN).getD 1 [] ≠ []
    rw [hsp]
    exact operatorRoleName_ne_nil pfx op
  · show (splitN '/' 2 r.RoleARN).getD 1 [] = operatorRoleName pfx op
    rw [hsp]
    rfl

def wOps10 : List Operator := [⟨gs "cloud-credentials", gs "openshift-ingress-operator", []⟩]

def wRoles10 : List OperatorIAMRole :=
  [⟨gs "cloud-credentials", gs "openshift-ingress-operator",
    getOperatorRoleArn (gs "c1-abcd") ⟨gs "cloud-credentials", gs "openshift-ingress-operator", []⟩
      ⟨gs "123456789012"⟩⟩]

/-- Witness for C10 at a concrete one-operator build. -/
theorem c10_operator_arn_split_safe_witness :
    (splitN '/' 2 (wRoles10.headD ⟨[], [], []⟩).RoleARN).length = 2 ∧
    extractedRoleName (wRoles10.headD ⟨[], [], []⟩) ≠ [] ∧
    ∃ op ∈ wOps10,
      (wRoles10.headD ⟨[], [], []⟩).RoleARN = getOperatorRoleArn (gs "c1-abcd") op
        ⟨gs "123456789012"⟩ ∧
      extractedRoleName (wRoles10.headD ⟨[], [], []⟩) = operatorRoleName (gs "c1-abcd") op :=
  c10_operator_arn_split_safe (fun _ _ => some true) (gs "4.9") (gs "c1-abcd")
    ⟨gs "123456789012"⟩ wOps10 wRoles10 (by decide) (by decide)
    (wRoles10.headD ⟨[], [], []⟩) (by decide)
